import Mathlib

/-!
Verification development for the `committer` CLI.

The development shallowly embeds the core of the repository:
the token-bounded text splitter (`internal/textsplitter`, file
`textsplitter.go`), the diff chunker, the prompt builder, the LLM call
wrapper and the interactive commit-message generation loop
(`internal/provider/provider.go`).

Go machine integers (type `int`) are modelled as `Int`; list indexing
mirrors Go slice expressions.  The external tiktoken tokenizer is kept
abstract: a `Tiktoken` value carries the `Encode`/`Decode` functions the
splitter uses, and the library lookup functions (`GetEncoding`,
`EncodingForModel`) are a parameter (`TiktokenLib`).  The Go `for` loop
of `splitTextIntoChunks` has no a-priori termination bound, so it is
embedded with explicit fuel: a `none` result means the fuel was
exhausted, and termination statements say which fuel suffices.
-/

set_option linter.unusedVariables false
set_option maxRecDepth 100000

namespace Committer

/-! ## Token splitter (`textsplitter.go`) -/

/-- Model of the external `tiktoken.Tiktoken` tokenizer handle: the two
functions the splitter calls on it.  `Encode text allowed disallowed`
returns the token-id sequence, `Decode` maps token ids back to text. -/
structure Tiktoken where
  Encode : String → List String → List String → List Nat
  Decode : List Nat → String

/-- Model of the tiktoken library entry points used by
`initializeTokenizer`; kept abstract since the library is external. -/
structure TiktokenLib where
  GetEncoding : String → Except String Tiktoken
  EncodingForModel : String → Except String Tiktoken

/-- Default configuration values for token splitting (source constants). -/
def DefaultTokenChunkOverlap : Int := 100

/-- Default maximum number of tokens per chunk (source constant). -/
def DefaultTokenChunkSize : Int := 4096

/-- Default encoding scheme for tokenization (source constant). -/
def DefaultTokenEncoding : String := "cl100k_base"

/-- Default model name used for tokenization (source constant). -/
def DefaultTokenModelName : String := "gpt-3.5-turbo"

/-- The `TokenSplitter` struct, fields as in the Go source.  Go `int`
fields are modelled as `Int`. -/
structure TokenSplitter where
  AllowedSpecial : List String
  ChunkOverlap : Int
  ChunkSize : Int
  DisallowedSpecial : List String
  EncodingName : String
  ModelName : String

/-- Source: `initializeTokenizer` — uses `GetEncoding` when
`EncodingName` is non-empty, `EncodingForModel` otherwise. -/
def TokenSplitter.initializeTokenizer (s : TokenSplitter) (lib : TiktokenLib) :
    Except String Tiktoken :=
  if s.EncodingName ≠ "" then lib.GetEncoding s.EncodingName
  else lib.EncodingForModel s.ModelName

/-- Source: `calculateInitialEndIndex` — the end index of the first
chunk: `ChunkSize` when the input is longer, the total otherwise. -/
def TokenSplitter.calculateInitialEndIndex (s : TokenSplitter) (totalTokens : Int) : Int :=
  if s.ChunkSize < totalTokens then s.ChunkSize else totalTokens

/-- Source: `calculateNextIndices` — next start advances by
`ChunkSize - ChunkOverlap`; next end is start plus `ChunkSize`, clipped
to the total token count. -/
def TokenSplitter.calculateNextIndices (s : TokenSplitter)
    (currentStart totalTokens : Int) : Int × Int :=
  let nextStart := currentStart + s.ChunkSize - s.ChunkOverlap
  let nextEnd0 := nextStart + s.ChunkSize
  let nextEnd := if nextEnd0 > totalTokens then totalTokens else nextEnd0
  (nextStart, nextEnd)

/-- Source: `processChunk` — decodes a token-id slice back to text. -/
def TokenSplitter.processChunk (s : TokenSplitter) (tokenIDs : List Nat)
    (tk : Tiktoken) : String :=
  tk.Decode tokenIDs

/-- Go slice expression `l[a:b]` on a token list (indices are Go ints). -/
def goSlice (l : List Nat) (a b : Int) : List Nat :=
  (l.drop a.toNat).take (b - a).toNat

/-- The `for startIdx < len(tokenIDs)` loop of `splitTextIntoChunks`,
with explicit fuel; `none` means the fuel ran out (the Go loop would
still be running after that many iterations). -/
def TokenSplitter.splitLoopFuel (s : TokenSplitter) (tokenIDs : List Nat)
    (tk : Tiktoken) : Nat → Int → Int → Option (List String)
  | 0, _, _ => none
  | fuel + 1, startIdx, endIdx =>
    if startIdx < (tokenIDs.length : Int) then
      -- Extract and decode the current chunk, then continue with the
      -- indices for the next chunk.
      let chunk := s.processChunk (goSlice tokenIDs startIdx endIdx) tk
      let next := s.calculateNextIndices startIdx (tokenIDs.length : Int)
      (s.splitLoopFuel tokenIDs tk fuel next.1 next.2).map (chunk :: ·)
    else
      some []

/-- Source: `splitTextIntoChunks` — encodes the text and runs the chunk
loop from `startIdx = 0` with the initial end index.  Fuel
`length + 1` is sufficient whenever the Go loop terminates (see
`splitLoopFuel_mono` and the termination lemmas below). -/
def TokenSplitter.splitTextIntoChunks (s : TokenSplitter) (text : String)
    (tk : Tiktoken) : Option (List String) :=
  let tokenIDs := tk.Encode text s.AllowedSpecial s.DisallowedSpecial
  s.splitLoopFuel tokenIDs tk (tokenIDs.length + 1) 0
    (s.calculateInitialEndIndex (tokenIDs.length : Int))

/-- Companion to `splitLoopFuel` recording only the Go slice bounds
`(startIdx, endIdx)` of each produced chunk (the token ranges underlying
the chunks). -/
def TokenSplitter.chunkRangesFuel (s : TokenSplitter) (totalTokens : Int) :
    Nat → Int → Int → Option (List (Int × Int))
  | 0, _, _ => none
  | fuel + 1, startIdx, endIdx =>
    if startIdx < totalTokens then
      let next := s.calculateNextIndices startIdx totalTokens
      (s.chunkRangesFuel totalTokens fuel next.1 next.2).map ((startIdx, endIdx) :: ·)
    else
      some []

/-- The token ranges underlying the chunks of `splitTextIntoChunks`,
from the initial loop state. -/
def TokenSplitter.chunkRanges (s : TokenSplitter) (totalTokens : Int) :
    Option (List (Int × Int)) :=
  s.chunkRangesFuel totalTokens (totalTokens.toNat + 1) 0
    (s.calculateInitialEndIndex totalTokens)

/-- Source: `SplitText` — initializes the tokenizer and splits; a
tokenizer-initialization failure is wrapped in the
`ERR_FAILED_TO_INIT_CHUNKER` catalog error.  The outer `Option` is the
fuel partiality of the chunk loop. -/
def TokenSplitter.SplitText (s : TokenSplitter) (lib : TiktokenLib)
    (text : String) : Option (Except String (List String)) :=
  match s.initializeTokenizer lib with
  | .error e => some (.error ("failed to initialize chunker: " ++ e))
  | .ok tk => (s.splitTextIntoChunks text tk).map .ok

/-- Source: `NewTokenSplitter` — builds the splitter from the default
constants, overriding `ChunkSize` with `chunkThreshold` when positive.
There is no validation of any kind: the function is total and cannot
fail. -/
def NewTokenSplitter (chunkThreshold : Int) : TokenSplitter :=
  let ts : TokenSplitter :=
    { AllowedSpecial := []
      ChunkOverlap := DefaultTokenChunkOverlap
      ChunkSize := DefaultTokenChunkSize
      DisallowedSpecial := []
      EncodingName := DefaultTokenEncoding
      ModelName := DefaultTokenModelName }
  if chunkThreshold > 0 then { ts with ChunkSize := chunkThreshold } else ts

/-! ## Diff chunking (`provider.go`, `ChunkDiff`) -/

/-- Source: `ChunkDiff` — returns the diff unchanged as a single chunk
when its byte length is at most `maxChars`; otherwise builds a
`NewTokenSplitter maxChars` and splits, wrapping a splitter error in the
`ERR_FAILED_TO_CHUNK_DIFF` catalog error.  Go `len(diff)` is the UTF-8
byte length. -/
def ChunkDiff (lib : TiktokenLib) (maxChars : Int) (diff : String) :
    Option (Except String (List String)) :=
  if (diff.utf8ByteSize : Int) ≤ maxChars then
    some (.ok [diff])
  else
    match (NewTokenSplitter maxChars).SplitText lib diff with
    | none => none
    | some (.error e) => some (.error ("failed to chunk diff: " ++ e))
    | some (.ok chunks) => some (.ok chunks)

/-! ## LLM provider model (`provider.go`) -/

/-- Model of Go `context.Context` values: enough structure to express
that `CallLLM` derives its context from `context.Background()` and never
from the caller context (which may even be cancelled). -/
inductive Context
  | background
  | withTimeout (parent : Context) (timeout : Int)
  | cancelled (parent : Context)

/-- Model of the inference `provider.IProvider` collaborator: one
`Completion` call taking the context and the user message (prompt). -/
structure IProvider where
  Completion : Context → String → Except String String

/-- Source: `CallLLM` — derives a deadline-bound context from
`context.Background()` (not from the supplied `ctx`) and delegates to
the provider, propagating its error unchanged. -/
def CallLLM (ctx : Context) (providerInUse : IProvider)
    (llmAPICallTimeout : Int) (prompt : String) : Except String String :=
  let ctxWithTimeout := Context.withTimeout Context.background llmAPICallTimeout
  providerInUse.Completion ctxWithTimeout prompt

/-! ## The embedded `commit.prompt` template

The Go source embeds `commit.prompt` and instantiates it with
`fmt.Sprintf(commitPrompt, a1, a2, a3, a4, a5)`.  The template is
transcribed literally, split at its five `%s` format verbs. -/

/-- Piece 0 of the embedded `commit.prompt` template (the text
around the 0-th format verb of the Sprintf call). -/
def commitPromptPiece0 : String :=
  "## Task\n\nPlease generate a concise and descriptive commit message using the prescribed \"Commit Message Template\", and based on the provided \"Change Statistics\" and \"Code Changes\". "

/-- Piece 1 of the embedded `commit.prompt` template (the text
around the 1-th format verb of the Sprintf call). -/
def commitPromptPiece1 : String :=
  "\n\n## Commit Message Template\n\n<type>(<scope>): <subject>\n\n<body>\n\n### Template Fields\n\n#### Header (Required)\n\n- **type**: (Required) The type of change being made:\n  - feat: A new feature\n  - fix: A bug fix\n  - docs: Documentation changes\n  - style: Changes that don\x27t affect code meaning (formatting, etc)\n  - refactor: Code changes that neither fix a bug nor add a feature\n  - perf: Performance improvements\n  - test: Adding or modifying tests\n  - chore: Changes to build process or auxiliary tools\n- **scope**: (Optional) The scope of the change (e.g., component name, module, etc)\n- **subject**: (Required) A brief description in imperative present tense\n\n#### Body\n\n- Explanation of what and why (not how)\n- Separate paragraphs with blank lines\n- Use bullet points for multiple points\n- Wrap at ~72 characters\n- No more change 240 characters\n\n### Examples\n\n#### Example 1\n\nfeat(auth): add OAuth2 authentication\n\nImplement OAuth2 authentication flow using Google and GitHub providers.\nThis allows users to sign in using their existing accounts instead of \ncreating new credentials.\n\n- Add OAuth2 middleware\n- Create social login buttons\n- Store provider tokens securely\n\n#### Example 2\n\nfix(api): prevent race condition in payment processing\n\nWhen multiple payment requests arrive simultaneously, ensure atomic\nupdates to prevent double-charging customers.\n\n### Handling Multi-Type Changes\n\nIf changes serve different purposes and can be separated, split them into multiple commits:\n\nInstead of:\n\nfeat(user): add profile page and fix login bug\n\nDo:\n\nfeat(user): add profile page\nfix(auth): correct login validation logic\n\nIf changes are tightly coupled, use the most significant type and detail other changes in the body:\n\nfeat(auth): implement password reset flow\n\n- Add password reset API endpoint\n- Create email templates for reset notifications\n- Add rate limiting to prevent abuse\n- Fix validation in existing password change form\n- Update security documentation\n\nWhile this includes fixes and docs, the primary change is the new password reset feature.\n\n### Best Practices\n\n1. Keep subject lines under 50 characters\n2. Use imperative mood (\"add\", not \"added\" or \"adds\")\n3. Don\x27t end subject line with period\n4. Start subject with lowercase letter\n5. Separate subject from body with blank line\n6. Use body to explain what and why vs. how\n7. When in doubt about type, consider the primary purpose of the change\n\n### Common Mistakes to Avoid\n\n- Vague messages (\"fix bug\", \"update code\")\n- Listing multiple unrelated changes\n- Including code or stack traces\n- Writing in past tense\n- Exceeding line length limits\n- Omitting context or motivation\n- Combining unrelated changes just to save time\n\nChange Statistics:\n\n"

/-- Piece 2 of the embedded `commit.prompt` template (the text
around the 2-th format verb of the Sprintf call). -/
def commitPromptPiece2 : String :=
  "\n\n"

/-- Piece 3 of the embedded `commit.prompt` template (the text
around the 3-th format verb of the Sprintf call). -/
def commitPromptPiece3 : String :=
  "\n\n"

/-- Piece 4 of the embedded `commit.prompt` template (the text
around the 4-th format verb of the Sprintf call). -/
def commitPromptPiece4 : String :=
  "\n\n"

/-- Piece 5 of the embedded `commit.prompt` template (the text
around the 5-th format verb of the Sprintf call). -/
def commitPromptPiece5 : String :=
  ""

/-- Model of `fmt.Sprintf(commitPrompt, a1, a2, a3, a4, a5)`:
the template pieces interleaved with the five arguments. -/
def commitPromptFmt (a1 a2 a3 a4 a5 : String) : String :=
  commitPromptPiece0 ++ a1 ++ commitPromptPiece1 ++ a2 ++ commitPromptPiece2 ++
    a3 ++ commitPromptPiece3 ++ a4 ++ commitPromptPiece4 ++ a5 ++
    commitPromptPiece5

/-- Source: the note passed as the first Sprintf argument when the diff
is chunked. -/
def tooBigNote : String :=
  "Git diff is too big, so we chunked it into smaller parts!"

/-- Source: `fmt.Sprintf("Chunk %d of %d:", chunkNumber, totalChunks)`. -/
def chunkHeader (chunkNumber totalChunks : Int) : String :=
  "Chunk " ++ toString chunkNumber ++ " of " ++ toString totalChunks ++ ":"

/-- The prompt built by `GenerateCommitMessage`: the chunked template
(with the too-big note and the chunk position header) when
`totalChunks > 1`, the standard template (both framing slots empty)
otherwise. -/
def GenerateCommitMessagePrompt (stats diff : String)
    (chunkNumber totalChunks : Int) (additionalInstructions : String) : String :=
  if totalChunks > 1 then
    commitPromptFmt tooBigNote stats (chunkHeader chunkNumber totalChunks)
      diff ("**" ++ additionalInstructions ++ "**")
  else
    commitPromptFmt "" stats "" diff ("**" ++ additionalInstructions ++ "**")

/-- Source: `GenerateCommitMessage` — builds the prompt for the chunk
and calls the LLM API through `CallLLM`. -/
def GenerateCommitMessage (ctx : Context) (providerInUse : IProvider)
    (llmAPICallTimeout : Int) (stats diff : String)
    (chunkNumber totalChunks : Int) (additionalInstructions : String) :
    Except String String :=
  let prompt := GenerateCommitMessagePrompt stats diff chunkNumber totalChunks
    additionalInstructions
  CallLLM ctx providerInUse llmAPICallTimeout prompt

/-! ## The interactive generation loop (`GenerateCommitMessageLoop`)

The terminal UI collaborator is modelled as streams of scripted answers,
one stream per prompt kind, each consumed left to right.  Every run of
the loop is instrumented with a trace of `CallRecord`s, one per
`GenerateCommitMessage` invocation, recording the arguments of the
call. -/

/-- The four options of the main prompt
("What would you like to do?"). -/
inductive MainChoice
  | approve
  | tryAgain
  | writeYourself
  | exitProgram
deriving DecidableEq

/-- The four options of the `HandleTryAgain` prompt
("What would you like to change?"). -/
inductive ChangeChoice
  | moreSuccinct
  | moreTechnical
  | lessTechnical
  | writeWhatShouldChange
deriving DecidableEq

/-- Scripted user-interaction collaborator. -/
structure UI where
  mainChoice : Nat → MainChoice
  changeChoice : Nat → ChangeChoice
  describeText : Nat → String
  textAreaResult : Nat → Except String String

/-- Cursor into each script stream of a `UI`. -/
structure UIState where
  mainIdx : Nat := 0
  changeIdx : Nat := 0
  describeIdx : Nat := 0
  textIdx : Nat := 0

def moreSuccinctInstruction : String :=
  "Please make the commit message more succinct while still conveying the essence of the change."

def moreTechnicalInstruction : String :=
  "Please make the commit message more technical, adding IF POSSIBLE, more context and details aiding engineering comprehension:\n\n1. Include relevant technical terms, e.g., function names, data structures, or algorithms modified.\n2. Specify the exact files or modules affected.\n3. For bug fixes, IF possible, briefly describe the root cause and solution.\n4. For new features, IF possible, outline the core implementation approach.\n5. Use concise language while maintaining technical accuracy.\n\nExamples:\n- \"Optimized database query in user_auth.py using indexing\"\n- \"Implemented red-black tree for efficient sorting in data_processor.cpp\"\n- \"Fixed race condition in thread pool by adding mutex lock in worker.java\"\n\nAim for a balance between technical depth and clarity. Prioritize information that aids code review and future maintenance. No more than 1000 characters!"

def lessTechnicalInstruction : String :=
  "Please make commit messages non-technical, suitable for general audiences. Aim for brevity while still conveying the essence of the change. Examples:\n\n- For updating dependencies: \"Updated dependencies\"\n- For fixing a bug: \"Fixed login issue\"\n- For adding a feature: \"Added dark mode\"\n- For refactoring: \"Improved code structure\"\n\nFor complex changes, summarize the overall impact rather than listing technical details. If multiple significant changes are present, use a bulleted list."

/-- Source: `HandleTryAgain` — maps the secondary choice to a fixed
instruction string; the "Write what should change" option instead
prompts for free text and returns it verbatim. -/
def HandleTryAgain (ui : UI) (ust : UIState) : String × UIState :=
  let changeChoice := ui.changeChoice ust.changeIdx
  let ust1 : UIState := { ust with changeIdx := ust.changeIdx + 1 }
  match changeChoice with
  | .moreSuccinct => (moreSuccinctInstruction, ust1)
  | .moreTechnical => (moreTechnicalInstruction, ust1)
  | .lessTechnical => (lessTechnicalInstruction, ust1)
  | .writeWhatShouldChange =>
    (ui.describeText ust1.describeIdx,
      { ust1 with describeIdx := ust1.describeIdx + 1 })

/-- One LLM call made by the loop, with the arguments it was given. -/
structure CallRecord where
  chunkNumber : Int
  totalChunks : Int
  additionalInstructions : String
  chunk : String
deriving DecidableEq

/-- How one iteration of the inner `for i, chunk := range chunks` loop
ends: a `return` from the whole function, a process exit, or a `break`
out of the chunk loop; `fellThrough` is the case of an empty chunk list
(the range loop body never ran). -/
inductive InnerOutcome
  | ret (r : Except String String)
  | exited
  | broke (newInstructions : String)
  | fellThrough (instructions : String)

/-- The inner `for i, chunk := range chunks` loop of
`GenerateCommitMessageLoop`.  In the Go source every switch case either
returns from the function, exits the process, or reaches the trailing
unconditional `break` (the `break` inside the `Try again` case only
leaves the `switch`); consequently the body runs for the first chunk
only and the iteration never advances — faithfully modelled here by the
match consuming only the head of the list. -/
def innerChunkLoop (providerInUse : IProvider) (llmAPICallTimeout : Int)
    (stats : String) (totalChunks : Int) (additionalInstructions : String)
    (ui : UI) (ust : UIState) (chunks : List String) (i : Nat) :
    InnerOutcome × List CallRecord × UIState :=
  match chunks with
  | [] => (.fellThrough additionalInstructions, [], ust)
  | chunk :: _rest =>
    let record : CallRecord :=
      ⟨(i : Int) + 1, totalChunks, additionalInstructions, chunk⟩
    match GenerateCommitMessage Context.background providerInUse
        llmAPICallTimeout stats chunk ((i : Int) + 1) totalChunks
        additionalInstructions with
    | .error e =>
      (.ret (.error ("failed to generate commit message: " ++ e)),
        [record], ust)
    | .ok message =>
      let choice := ui.mainChoice ust.mainIdx
      let ust1 : UIState := { ust with mainIdx := ust.mainIdx + 1 }
      match choice with
      | .approve => (.ret (.ok message), [record], ust1)
      | .tryAgain =>
        -- Go: `break` leaves the switch, then the trailing unconditional
        -- `break` leaves the chunk loop.
        let p := HandleTryAgain ui ust1
        (.broke p.1, [record], p.2)
      | .writeYourself =>
        let ust2 : UIState := { ust1 with textIdx := ust1.textIdx + 1 }
        match ui.textAreaResult ust1.textIdx with
        | .error e =>
          (.ret (.error ("failed to get commit message: " ++ e)),
            [record], ust2)
        | .ok content => (.ret (.ok (content ++ "\n")), [record], ust2)
      | .exitProgram =>
        -- Go: `shared.NothingToDo()` prints and calls `os.Exit(0)`.
        (.exited, [record], ust1)

/-- Terminal result of `GenerateCommitMessageLoop`: the returned
message, a returned error, or a process exit (the `Exit` choice calls
`os.Exit(0)` via `shared.NothingToDo`). -/
inductive LoopOutcome
  | message (finalMessage : String)
  | failure (e : String)
  | exited
deriving DecidableEq

/-- The outer `for attempt := 0; attempt < maxAttempts; attempt++` loop,
written as a countdown on the remaining attempts.  When the countdown
reaches zero the source returns the `maximum attempts reached` error. -/
def attemptLoop (providerInUse : IProvider) (llmAPICallTimeout : Int)
    (stats : String) (chunks : List String) (ui : UI) :
    Nat → String → UIState → LoopOutcome × List CallRecord
  | 0, _, _ => (.failure "maximum attempts reached", [])
  | attemptsLeft + 1, additionalInstructions, ust =>
    match innerChunkLoop providerInUse llmAPICallTimeout stats
        (chunks.length : Int) additionalInstructions ui ust chunks 0 with
    | (.ret (.ok m), tr, _) => (.message m, tr)
    | (.ret (.error e), tr, _) => (.failure e, tr)
    | (.exited, tr, _) => (.exited, tr)
    | (.broke newInstructions, tr, ust2) =>
      let rest := attemptLoop providerInUse llmAPICallTimeout stats chunks ui
        attemptsLeft newInstructions ust2
      (rest.1, tr ++ rest.2)
    | (.fellThrough instr2, tr, ust2) =>
      let rest := attemptLoop providerInUse llmAPICallTimeout stats chunks ui
        attemptsLeft instr2 ust2
      (rest.1, tr ++ rest.2)

/-- Source constant: `maxAttempts := 5`. -/
def maxAttempts : Nat := 5

/-- Source: `GenerateCommitMessageLoop` — runs up to `maxAttempts`
attempts starting with empty additional instructions, returning the
outcome together with the instrumentation trace of LLM calls. -/
def GenerateCommitMessageLoop (providerInUse : IProvider)
    (llmAPICallTimeout : Int) (stats : String) (chunks : List String)
    (ui : UI) : LoopOutcome × List CallRecord :=
  attemptLoop providerInUse llmAPICallTimeout stats chunks ui maxAttempts "" {}

/-! ## Analysis of the chunk loop -/

/-- Closed form of the end index maintained by the loop: the end of the
range starting at `x` is `x + ChunkSize` clipped to the total. -/
def TokenSplitter.endFor (s : TokenSplitter) (totalTokens x : Int) : Int :=
  if x + s.ChunkSize > totalTokens then totalTokens else x + s.ChunkSize

/-- The merge operation of the spec: keep the first chunk whole and
discard the `ChunkOverlap`-token prefix of every later chunk, then
concatenate (stated on the token ranges underlying the chunks). -/
def sliceJoin (s : TokenSplitter) (tokens : List Nat) : List (Int × Int) → List Nat
  | [] => []
  | r :: rest =>
    goSlice tokens r.1 r.2 ++
      (rest.map fun r2 => (goSlice tokens r2.1 r2.2).drop s.ChunkOverlap.toNat).flatten

/-! ## Concrete collaborators used in witnesses and counterexamples -/

/-- A provider whose completion always succeeds with a fixed message. -/
def providerOk : IProvider :=
  { Completion := fun _ _ => .ok "msg" }

/-- A scripted UI that always answers `Try again` and then always picks
the fixed `Make more succinct` alternate instruction. -/
def uiTryAgain : UI :=
  { mainChoice := fun _ => .tryAgain
    changeChoice := fun _ => .moreSuccinct
    describeText := fun _ => ""
    textAreaResult := fun _ => .ok "" }

/-- A concrete tokenizer for closed instances: one token per character
(`Char ↔ Nat` is an exact round trip, like a byte-level tokenizer). -/
def byteTok : Tiktoken :=
  { Encode := fun text _ _ => text.data.map Char.toNat
    Decode := fun ids => String.mk (ids.map Char.ofNat) }

/-- A tiktoken library model resolving every name to a fixed tokenizer. -/
def libOf (tk : Tiktoken) : TiktokenLib :=
  { GetEncoding := fun _ => .ok tk
    EncodingForModel := fun _ => .ok tk }

/-- Valid example configuration: chunk size 10, overlap 0. -/
def splitterTen : TokenSplitter :=
  { AllowedSpecial := []
    ChunkOverlap := 0
    ChunkSize := 10
    DisallowedSpecial := []
    EncodingName := DefaultTokenEncoding
    ModelName := DefaultTokenModelName }

/-- Valid example configuration: chunk size 10, overlap 9 (an extreme
but accepted configuration, since 0 ≤ 9 < 10). -/
def splitterTenNine : TokenSplitter :=
  { AllowedSpecial := []
    ChunkOverlap := 9
    ChunkSize := 10
    DisallowedSpecial := []
    EncodingName := DefaultTokenEncoding
    ModelName := DefaultTokenModelName }

/-- The rejected-by-the-spec configuration of the claim:
chunk size 10 equal to the overlap 10. -/
def splitterTenTen : TokenSplitter :=
  { AllowedSpecial := []
    ChunkOverlap := 10
    ChunkSize := 10
    DisallowedSpecial := []
    EncodingName := DefaultTokenEncoding
    ModelName := DefaultTokenModelName }

/-- A tokenizer whose encoding of any text is the 10000 tokens
`0, …, 9999`; used to instantiate the 10000-token scenario. -/
def rangeTok : Tiktoken :=
  { Encode := fun _ _ _ => List.range 10000
    Decode := fun _ => "" }

/-- Linear-scan substring check (used to evaluate pattern absence on the
long template pieces by kernel reduction). -/
def containsB (P : List Char) : List Char → Bool
  | [] => P.isEmpty
  | a :: t => P.isPrefixOf (a :: t) || containsB P t

end Committer

open Committer

/-! ## Theorems -/

theorem calculateInitialEndIndex_eq_endFor (s : TokenSplitter) (total : Int) :
    s.calculateInitialEndIndex total = s.endFor total 0 := by
  simp only [TokenSplitter.calculateInitialEndIndex, TokenSplitter.endFor]
  split <;> split <;> omega

theorem calculateNextIndices_eq (s : TokenSplitter) (st total : Int) :
    s.calculateNextIndices st total =
      (st + s.ChunkSize - s.ChunkOverlap,
        s.endFor total (st + s.ChunkSize - s.ChunkOverlap)) := rfl

/-- The chunk loop agrees with its range companion: the produced chunks
are exactly the decoded Go slices of the recorded ranges. -/
theorem splitLoopFuel_eq_ranges (s : TokenSplitter) (tokens : List Nat)
    (tk : Tiktoken) :
    ∀ (fuel : Nat) (st en : Int),
      s.splitLoopFuel tokens tk fuel st en =
        (s.chunkRangesFuel (tokens.length : Int) fuel st en).map
          (List.map fun r => tk.Decode (goSlice tokens r.1 r.2)) := by
  intro fuel
  induction fuel with
  | zero => intro st en; rfl
  | succ fuel ih =>
    intro st en
    simp only [TokenSplitter.splitLoopFuel, TokenSplitter.chunkRangesFuel]
    split
    · rw [ih]
      cases s.chunkRangesFuel (tokens.length : Int) fuel
          (s.calculateNextIndices st (tokens.length : Int)).1
          (s.calculateNextIndices st (tokens.length : Int)).2 with
      | none => rfl
      | some rs => rfl
    · rfl

/-- Main invariant of the chunk loop, proved by induction on the fuel:
for a valid configuration (`0 ≤ ChunkOverlap < ChunkSize`) and enough
fuel, the loop terminates; the ranges it records start at the current
index, advance by exactly `ChunkSize - ChunkOverlap`, end at
`ChunkSize` past their start clipped to the input length, and merging
the underlying token slices (dropping the `ChunkOverlap`-prefix of every
slice after the first) reproduces the remaining input exactly. -/
theorem chunkRangesFuel_spec (s : TokenSplitter) (hov : 0 ≤ s.ChunkOverlap)
    (hsz : s.ChunkOverlap < s.ChunkSize) (tokens : List Nat) :
    ∀ (fuel : Nat) (st : Int), 0 ≤ st →
      ((tokens.length : Int) - st).toNat < fuel →
      ∃ rs, s.chunkRangesFuel (tokens.length : Int) fuel st
              (s.endFor (tokens.length : Int) st) = some rs ∧
        ((tokens.length : Int) ≤ st → rs = []) ∧
        (st < (tokens.length : Int) →
          ∃ rest, rs = (st, s.endFor (tokens.length : Int) st) :: rest) ∧
        (∀ r ∈ rs, 0 ≤ r.1 ∧ st ≤ r.1 ∧ r.1 < (tokens.length : Int) ∧
          r.2 = s.endFor (tokens.length : Int) r.1) ∧
        List.Chain' (fun a b => b.1 = a.1 + (s.ChunkSize - s.ChunkOverlap)) rs ∧
        sliceJoin s tokens rs = tokens.drop st.toNat := by
  intro fuel
  induction fuel with
  | zero => intro st _ hf; omega
  | succ fuel ih =>
    intro st hst hf
    set N : Int := (tokens.length : Int) with hN
    by_cases hcond : st < N
    · -- The loop body runs: record the range and continue at the next
      -- start index.
      set st' : Int := st + s.ChunkSize - s.ChunkOverlap with hst'
      have hst'0 : 0 ≤ st' := by omega
      have hst'gt : st < st' := by omega
      have hf' : (N - st').toNat < fuel := by omega
      obtain ⟨rs', heq', hemp', hhead', hmem', hchain', hjoin'⟩ :=
        ih st' hst'0 hf'
      refine ⟨(st, s.endFor N st) :: rs', ?_, ?_, ?_, ?_, ?_, ?_⟩
      · simp only [TokenSplitter.chunkRangesFuel, if_pos hcond,
          calculateNextIndices_eq]
        rw [← hst', heq']
        rfl
      · intro h; omega
      · intro _; exact ⟨rs', rfl⟩
      · intro r hr
        rcases List.mem_cons.mp hr with h | h
        · subst h; exact ⟨hst, le_refl st, hcond, rfl⟩
        · obtain ⟨h1, h2, h3, h4⟩ := hmem' r h
          exact ⟨h1, by omega, h3, h4⟩
      · rw [List.chain'_cons']
        refine ⟨?_, hchain'⟩
        intro b hb
        by_cases h2 : st' < N
        · obtain ⟨rest, hrest⟩ := hhead' h2
          rw [hrest] at hb
          simp only [List.head?_cons, Option.mem_def, Option.some.injEq] at hb
          subst hb
          simp only [hst']
          ring
        · rw [hemp' (by omega)] at hb
          simp at hb
      · -- Coverage: the head slice plus the merged tail reproduce the
        -- remaining input.
        by_cases h2 : st' < N
        · obtain ⟨rest, hrest⟩ := hhead' h2
          subst hrest
          set e' : Int := s.endFor N st' with he'
          have he'cases : e' = st' + s.ChunkSize ∨ (e' = N ∧ N < st' + s.ChunkSize) := by
            simp only [he', TokenSplitter.endFor]
            split
            · right; omega
            · left; rfl
          have he'le : e' ≤ N := by
            simp only [he', TokenSplitter.endFor]; split <;> omega
          have he'ge : st' < e' := by
            simp only [he', TokenSplitter.endFor]; split <;> omega
          -- Unpack the induction hypothesis for the tail.
          have hjoinA : goSlice tokens st' e' ++
              ((rest.map fun r2 =>
                (goSlice tokens r2.1 r2.2).drop s.ChunkOverlap.toNat).flatten) =
              tokens.drop st'.toNat := hjoin'
          have hAlen : (goSlice tokens st' e').length = (e' - st').toNat := by
            simp only [goSlice, List.length_take, List.length_drop]
            omega
          have hX : (rest.map fun r2 =>
              (goSlice tokens r2.1 r2.2).drop s.ChunkOverlap.toNat).flatten =
              tokens.drop e'.toNat := by
            have := congrArg (List.drop (goSlice tokens st' e').length) hjoinA
            rw [List.drop_left] at this
            rw [this, hAlen, List.drop_drop]
            congr 1
            omega
          have hB : (goSlice tokens st' e').drop s.ChunkOverlap.toNat =
              (tokens.drop (st' + s.ChunkOverlap).toNat).take
                ((e' - st').toNat - s.ChunkOverlap.toNat) := by
            simp only [goSlice]
            rw [List.drop_take, List.drop_drop]
            congr 2
            omega
          simp only [sliceJoin, List.map_cons, List.flatten_cons]
          rw [hB, hX]
          by_cases h3 : st + s.ChunkSize ≤ N
          · -- First range unclipped: its end is exactly st + ChunkSize.
            have hef : s.endFor N st = st + s.ChunkSize := by
              simp only [TokenSplitter.endFor]; split <;> omega
            have he'ov : st' + s.ChunkOverlap ≤ e' := by
              rcases he'cases with h | ⟨h, h2'⟩ <;> omega
            rw [hef]
            have hslice : goSlice tokens st (st + s.ChunkSize) =
                (tokens.drop st.toNat).take ((st + s.ChunkSize).toNat - st.toNat) := by
              simp only [goSlice]
              congr 1
              omega
            rw [hslice]
            have e1 : (st' + s.ChunkOverlap).toNat =
                st.toNat + ((st + s.ChunkSize).toNat - st.toNat) := by omega
            have e2 : e'.toNat = st.toNat + ((st + s.ChunkSize).toNat - st.toNat)
                + ((e' - st').toNat - s.ChunkOverlap.toNat) := by omega
            rw [e1, e2]
            rw [List.drop_take_append_drop tokens
              (st.toNat + ((st + s.ChunkSize).toNat - st.toNat))
              ((e' - st').toNat - s.ChunkOverlap.toNat)]
            exact List.drop_take_append_drop tokens st.toNat
              ((st + s.ChunkSize).toNat - st.toNat)
          · -- First range clipped to the input length: the tail slices
            -- contribute nothing.
            have hef : s.endFor N st = N := by
              simp only [TokenSplitter.endFor]; split <;> omega
            have he'N : e' = N := by
              rcases he'cases with h | ⟨h, h2'⟩ <;> omega
            have hXnil : tokens.drop e'.toNat = [] := by
              apply List.drop_eq_nil_of_le
              omega
            have hBnil : tokens.drop (st' + s.ChunkOverlap).toNat = [] := by
              apply List.drop_eq_nil_of_le
              omega
            rw [hef, hXnil, hBnil]
            simp only [List.take_nil, List.append_nil]
            simp only [goSlice]
            rw [List.take_of_length_le]
            simp only [List.length_drop]
            omega
        · -- The next start index already reaches the end: single chunk
          -- covering the rest of the input.
          rw [hemp' (by omega)]
          simp only [sliceJoin, List.map_nil, List.flatten_nil, List.append_nil]
          have hef : s.endFor N st = N := by
            simp only [TokenSplitter.endFor]; split <;> omega
          rw [hef]
          simp only [goSlice]
          rw [List.take_of_length_le]
          simp only [List.length_drop]
          omega
    · -- Loop guard false: no more chunks.
      refine ⟨[], ?_, ?_, ?_, ?_, ?_, ?_⟩
      · simp only [TokenSplitter.chunkRangesFuel, if_neg hcond]
      · intro _; rfl
      · intro h; omega
      · intro r hr; simp at hr
      · exact List.chain'_nil
      · simp only [sliceJoin]
        rw [eq_comm]
        apply List.drop_eq_nil_of_le
        omega

/-- Helper: a pointwise implication between chain relations that may
use a property of the list members. -/
theorem chain'_imp_mem {α : Type} {R S : α → α → Prop} {P : α → Prop} :
    ∀ {l : List α}, (∀ x ∈ l, P x) → List.Chain' R l →
      (∀ a b, P a → P b → R a b → S a b) → List.Chain' S l
  | [], _, _, _ => List.chain'_nil
  | [_], _, _, _ => List.chain'_singleton _
  | a :: b :: t, hmem, hchain, himp => by
    rw [List.chain'_cons] at hchain ⊢
    refine ⟨himp a b (hmem a (by simp)) (hmem b (by simp)) hchain.1, ?_⟩
    exact chain'_imp_mem (fun x hx => hmem x (List.mem_cons_of_mem a hx))
      hchain.2 himp

/-- Instantiation of the loop invariant at the initial loop state of
`splitTextIntoChunks` (`startIdx = 0`, end index from
`calculateInitialEndIndex`, fuel `length + 1`). -/
theorem chunkRanges_top (s : TokenSplitter) (hov : 0 ≤ s.ChunkOverlap)
    (hsz : s.ChunkOverlap < s.ChunkSize) (tokens : List Nat) :
    ∃ rs, s.chunkRangesFuel (tokens.length : Int) (tokens.length + 1) 0
            (s.calculateInitialEndIndex (tokens.length : Int)) = some rs ∧
      (tokens = [] → rs = []) ∧
      (tokens ≠ [] →
        ∃ rest, rs = (0, s.endFor (tokens.length : Int) 0) :: rest) ∧
      (∀ r ∈ rs, 0 ≤ r.1 ∧ r.1 < (tokens.length : Int) ∧
        r.2 = s.endFor (tokens.length : Int) r.1) ∧
      List.Chain' (fun a b => b.1 = a.1 + (s.ChunkSize - s.ChunkOverlap)) rs ∧
      sliceJoin s tokens rs = tokens := by
  obtain ⟨rs, heq, hemp, hhead, hmem, hchain, hjoin⟩ :=
    chunkRangesFuel_spec s hov hsz tokens (tokens.length + 1) 0 le_rfl
      (by omega)
  rw [calculateInitialEndIndex_eq_endFor]
  refine ⟨rs, heq, ?_, ?_, ?_, hchain, ?_⟩
  · intro h
    apply hemp
    simp [h]
  · intro h
    apply hhead
    have : tokens.length ≠ 0 := by simpa using h
    omega
  · intro r hr
    obtain ⟨h1, _, h3, h4⟩ := hmem r hr
    exact ⟨h1, h3, h4⟩
  · simpa using hjoin

/-! ## Analysis of the generation loop -/

/-- The trace of one run of the inner chunk loop: either no chunk
exists, or exactly one call was made, for the first chunk with chunk
number 1. -/
theorem innerChunkLoop_trace (providerInUse : IProvider)
    (llmAPICallTimeout : Int) (stats : String) (totalChunks : Int)
    (additionalInstructions : String) (ui : UI) (ust : UIState)
    (chunks : List String) :
    (innerChunkLoop providerInUse llmAPICallTimeout stats totalChunks
      additionalInstructions ui ust chunks 0).2.1 = [] ∨
    ∃ c, chunks.head? = some c ∧
      (innerChunkLoop providerInUse llmAPICallTimeout stats totalChunks
        additionalInstructions ui ust chunks 0).2.1 =
      [⟨1, totalChunks, additionalInstructions, c⟩] := by
  cases chunks with
  | nil => left; rfl
  | cons c rest =>
    right
    refine ⟨c, rfl, ?_⟩
    simp only [innerChunkLoop]
    split
    · rfl
    · split
      · rfl
      · rfl
      · split <;> rfl
      · rfl

/-- Trace shape of the attempt loop: at most one LLM call per remaining
attempt, and every call is for chunk number 1 of `chunks.length`. -/
theorem attemptLoop_trace (providerInUse : IProvider)
    (llmAPICallTimeout : Int) (stats : String) (chunks : List String)
    (ui : UI) :
    ∀ (n : Nat) (instr : String) (ust : UIState),
      (attemptLoop providerInUse llmAPICallTimeout stats chunks ui n
        instr ust).2.length ≤ n ∧
      ∀ r ∈ (attemptLoop providerInUse llmAPICallTimeout stats chunks ui n
          instr ust).2,
        r.chunkNumber = 1 ∧ r.totalChunks = (chunks.length : Int) := by
  intro n
  induction n with
  | zero =>
    intro instr ust
    exact ⟨by simp [attemptLoop], by simp [attemptLoop]⟩
  | succ n ih =>
    intro instr ust
    have hinner := innerChunkLoop_trace providerInUse llmAPICallTimeout stats
      (chunks.length : Int) instr ui ust chunks
    rcases hres : innerChunkLoop providerInUse llmAPICallTimeout stats
      (chunks.length : Int) instr ui ust chunks 0 with ⟨out, tr, ust2⟩
    rw [hres] at hinner
    have htr : tr.length ≤ 1 ∧
        ∀ r ∈ tr, r.chunkNumber = 1 ∧ r.totalChunks = (chunks.length : Int) := by
      rcases hinner with h | ⟨c, _, h⟩ <;> simp only at h <;> subst h <;> simp
    simp only [attemptLoop]
    rw [hres]
    cases out with
    | ret r =>
      cases r with
      | ok m =>
        refine ⟨?_, ?_⟩
        · show tr.length ≤ n + 1
          have := htr.1; omega
        · show ∀ r ∈ tr, _
          exact htr.2
      | error e =>
        refine ⟨?_, ?_⟩
        · show tr.length ≤ n + 1
          have := htr.1; omega
        · show ∀ r ∈ tr, _
          exact htr.2
    | exited =>
      refine ⟨?_, ?_⟩
      · show tr.length ≤ n + 1
        have := htr.1; omega
      · show ∀ r ∈ tr, _
        exact htr.2
    | broke ninstr =>
      obtain ⟨ihl, ihm⟩ := ih ninstr ust2
      refine ⟨?_, ?_⟩
      · show (tr ++ (attemptLoop providerInUse llmAPICallTimeout stats chunks
          ui n ninstr ust2).2).length ≤ n + 1
        simp only [List.length_append]
        have := htr.1; omega
      · show ∀ r ∈ tr ++ (attemptLoop providerInUse llmAPICallTimeout stats
          chunks ui n ninstr ust2).2, _
        intro r hr
        rcases List.mem_append.mp hr with h | h
        · exact htr.2 r h
        · exact ihm r h
    | fellThrough instr2 =>
      obtain ⟨ihl, ihm⟩ := ih instr2 ust2
      refine ⟨?_, ?_⟩
      · show (tr ++ (attemptLoop providerInUse llmAPICallTimeout stats chunks
          ui n instr2 ust2).2).length ≤ n + 1
        simp only [List.length_append]
        have := htr.1; omega
      · show ∀ r ∈ tr ++ (attemptLoop providerInUse llmAPICallTimeout stats
          chunks ui n instr2 ust2).2, _
        intro r hr
        rcases List.mem_append.mp hr with h | h
        · exact htr.2 r h
        · exact ihm r h

/-! ## Claim theorems: the token splitter -/

/-- C2 (code bug): the code performs no configuration validation at all.
`NewTokenSplitter` is a total function returning a plain `TokenSplitter`
(its Go signature has no error result), and for the configuration of the
claim (`chunkSize = 10`, `chunkOverlap = 10`) the chunk loop of
`splitTextIntoChunks` stalls: the start index never advances, no fuel
suffices, and in particular `SplitText` on a nonempty input never
returns — contradicting the required `InvalidConfiguration` rejection. -/
theorem C2_no_validation_infinite_loop :
    (NewTokenSplitter 10).ChunkSize = 10 ∧
    (NewTokenSplitter 10).ChunkOverlap = 100 ∧
    (NewTokenSplitter 10).ChunkSize ≤ (NewTokenSplitter 10).ChunkOverlap ∧
    splitterTenTen.ChunkSize = 10 ∧ splitterTenTen.ChunkOverlap = 10 ∧
    (∀ (fuel : Nat) (en : Int),
      splitterTenTen.splitLoopFuel [97] byteTok fuel 0 en = none) ∧
    splitterTenTen.splitTextIntoChunks "a" byteTok = none := by
  refine ⟨by decide, by decide, by decide, rfl, rfl, ?_, by decide⟩
  intro fuel
  induction fuel with
  | zero => intro en; rfl
  | succ fuel ih =>
    intro en
    have hguard : (0 : Int) < (([97] : List Nat).length : Int) := by decide
    simp only [TokenSplitter.splitLoopFuel, if_pos hguard]
    have hnext : splitterTenTen.calculateNextIndices 0 (([97] : List Nat).length : Int) =
        (0, 1) := by decide
    rw [hnext]
    rw [ih 1]
    rfl

/-- C3 (amended): for every valid configuration
(`0 ≤ chunkOverlap < chunkSize`) and every input text, `SplitText`
terminates (the loop fuel `token count + 1` suffices).  It returns at
least one chunk exactly when the encoded token sequence is nonempty; an
input encoding to no tokens — in particular the empty text — yields the
empty chunk list, not a single empty chunk. -/
theorem C3_terminates_nonempty_iff (s : TokenSplitter) (lib : TiktokenLib)
    (tk : Tiktoken) (text : String)
    (hov : 0 ≤ s.ChunkOverlap) (hsz : s.ChunkOverlap < s.ChunkSize)
    (hinit : s.initializeTokenizer lib = .ok tk) :
    ∃ chunks, s.SplitText lib text = some (.ok chunks) ∧
      (tk.Encode text s.AllowedSpecial s.DisallowedSpecial = [] →
        chunks = []) ∧
      (tk.Encode text s.AllowedSpecial s.DisallowedSpecial ≠ [] →
        chunks ≠ []) := by
  set tokens := tk.Encode text s.AllowedSpecial s.DisallowedSpecial with htok
  obtain ⟨rs, heq, hemp, hhead, hmem, hchain, hjoin⟩ :=
    chunkRanges_top s hov hsz tokens
  refine ⟨rs.map fun r => tk.Decode (goSlice tokens r.1 r.2), ?_, ?_, ?_⟩
  · simp only [TokenSplitter.SplitText, hinit]
    simp only [TokenSplitter.splitTextIntoChunks, ← htok]
    rw [splitLoopFuel_eq_ranges, heq]
    rfl
  · intro h
    rw [hemp h]
    rfl
  · intro h
    obtain ⟨rest, hrest⟩ := hhead h
    rw [hrest]
    simp

/-- C3 counterexample: with the valid configuration chunk size 10 /
overlap 0 and a byte-level tokenizer, splitting the empty text returns
the empty chunk list — zero chunks, not the single empty chunk the claim
requires. -/
theorem C3_counterexample :
    splitterTen.SplitText (libOf byteTok) "" =
      some (Except.ok ([] : List String)) ∧
    (some (Except.ok ([] : List String)) :
        Option (Except String (List String))) ≠
      some (Except.ok [""]) := by
  refine ⟨rfl, by simp⟩

/-- C4 (amended): for every valid configuration and every input whose
encoded token count is at least 1 and at most
`chunkSize - chunkOverlap`, `splitTextIntoChunks` returns exactly one
chunk, the decode of the whole token sequence.  (The bound of the
original claim, token count at most `chunkSize`, is not sufficient: see
the counterexample.) -/
theorem C4_single_chunk (s : TokenSplitter) (tk : Tiktoken) (text : String)
    (hov : 0 ≤ s.ChunkOverlap) (hsz : s.ChunkOverlap < s.ChunkSize)
    (hne : tk.Encode text s.AllowedSpecial s.DisallowedSpecial ≠ [])
    (hlen : ((tk.Encode text s.AllowedSpecial s.DisallowedSpecial).length : Int) ≤
      s.ChunkSize - s.ChunkOverlap) :
    s.splitTextIntoChunks text tk =
      some [tk.Decode (tk.Encode text s.AllowedSpecial s.DisallowedSpecial)] := by
  set tokens := tk.Encode text s.AllowedSpecial s.DisallowedSpecial with htok
  obtain ⟨rs, heq, hemp, hhead, hmem, hchain, hjoin⟩ :=
    chunkRanges_top s hov hsz tokens
  obtain ⟨rest, hrest⟩ := hhead hne
  have hN1 : (1 : Int) ≤ (tokens.length : Int) := by
    have : tokens.length ≠ 0 := by simpa using hne
    omega
  -- The tail is empty: a second range would start at
  -- `ChunkSize - ChunkOverlap ≥ token count`, violating the member bound.
  have hrest_nil : rest = [] := by
    cases rest with
    | nil => rfl
    | cons b t =>
      exfalso
      have hb : b ∈ rs := by rw [hrest]; simp
      obtain ⟨_, hblt, _⟩ := hmem b hb
      have hchain2 := hchain
      rw [hrest, List.chain'_cons] at hchain2
      have hb1 : b.1 = 0 + (s.ChunkSize - s.ChunkOverlap) := hchain2.1
      omega
  -- The single recorded range covers the whole input.
  have hend : s.endFor (tokens.length : Int) 0 = (tokens.length : Int) := by
    simp only [TokenSplitter.endFor]
    split <;> omega
  rw [hrest, hrest_nil] at heq hjoin
  have hslice : goSlice tokens 0 (s.endFor (tokens.length : Int) 0) = tokens := by
    have := hjoin
    simpa [sliceJoin] using this
  simp only [TokenSplitter.splitTextIntoChunks, ← htok]
  rw [splitLoopFuel_eq_ranges, heq]
  simp [hslice]

/-- C4 counterexample: chunk size 10, overlap 9 is a valid
configuration, and the 5-character text `"abcde"` encodes (byte-level)
to 5 tokens, within the claimed bound 5 ≤ chunkSize = 10 — yet the
splitter returns five chunks, not exactly one. -/
theorem C4_counterexample :
    ((byteTok.Encode "abcde" [] []).length : Int) ≤ splitterTenNine.ChunkSize ∧
    splitterTenNine.splitTextIntoChunks "abcde" byteTok =
      some ["abcde", "bcde", "cde", "de", "e"] ∧
    (["abcde", "bcde", "cde", "de", "e"] : List String).length ≠ 1 := by
  refine ⟨by decide, by decide, by decide⟩

/-- C6 (amended): for every valid configuration and input, the token
ranges recorded for the chunks are produced in source order with starts
advancing by exactly `chunkSize - chunkOverlap`; every range ends at
`chunkSize` past its start clipped to the input length (clipping can
affect any range, not only the final one); consecutive ranges whose
earlier range is unclipped overlap by exactly `chunkOverlap` tokens; and
discarding the `chunkOverlap`-token prefix of every chunk after the
first yields exactly the input token sequence, each token once, in
order. -/
theorem C6_order_overlap_coverage (s : TokenSplitter) (tk : Tiktoken)
    (text : String)
    (hov : 0 ≤ s.ChunkOverlap) (hsz : s.ChunkOverlap < s.ChunkSize) :
    ∃ rs, s.chunkRangesFuel
        ((tk.Encode text s.AllowedSpecial s.DisallowedSpecial).length : Int)
        ((tk.Encode text s.AllowedSpecial s.DisallowedSpecial).length + 1) 0
        (s.calculateInitialEndIndex
          ((tk.Encode text s.AllowedSpecial s.DisallowedSpecial).length : Int)) =
        some rs ∧
      s.splitTextIntoChunks text tk =
        some (rs.map fun r =>
          tk.Decode (goSlice (tk.Encode text s.AllowedSpecial s.DisallowedSpecial) r.1 r.2)) ∧
      List.Chain' (fun a b => a.1 < b.1) rs ∧
      List.Chain' (fun a b => b.1 = a.1 + (s.ChunkSize - s.ChunkOverlap)) rs ∧
      (∀ r ∈ rs,
        r.2 = if r.1 + s.ChunkSize >
            ((tk.Encode text s.AllowedSpecial s.DisallowedSpecial).length : Int)
          then ((tk.Encode text s.AllowedSpecial s.DisallowedSpecial).length : Int)
          else r.1 + s.ChunkSize) ∧
      List.Chain' (fun a b =>
        a.1 + s.ChunkSize ≤
            ((tk.Encode text s.AllowedSpecial s.DisallowedSpecial).length : Int) →
          a.2 - b.1 = s.ChunkOverlap) rs ∧
      sliceJoin s (tk.Encode text s.AllowedSpecial s.DisallowedSpecial) rs =
        tk.Encode text s.AllowedSpecial s.DisallowedSpecial := by
  set tokens := tk.Encode text s.AllowedSpecial s.DisallowedSpecial with htok
  obtain ⟨rs, heq, hemp, hhead, hmem, hchain, hjoin⟩ :=
    chunkRanges_top s hov hsz tokens
  refine ⟨rs, heq, ?_, ?_, hchain, ?_, ?_, hjoin⟩
  · simp only [TokenSplitter.splitTextIntoChunks, ← htok]
    rw [splitLoopFuel_eq_ranges, heq]
    rfl
  · exact hchain.imp fun a b h => by omega
  · intro r hr
    obtain ⟨_, _, h3⟩ := hmem r hr
    simpa [TokenSplitter.endFor] using h3
  · refine chain'_imp_mem (R := fun a b => b.1 = a.1 + (s.ChunkSize - s.ChunkOverlap))
      (P := fun r => r.2 = s.endFor (tokens.length : Int) r.1)
      (fun r hr => (hmem r hr).2.2) hchain ?_
    intro a b ha hb hr hclip
    rw [ha]
    simp only [TokenSplitter.endFor]
    rw [if_neg (by omega)]
    omega

/-- C6 counterexample: with the valid configuration chunk size 10 /
overlap 9 on a 5-token input, the recorded ranges are
`(0,5), (1,5), (2,5), (3,5), (4,5)`.  The consecutive ranges `(0,5)` and
`(1,5)` — the second of which is not the final range — share the 4
tokens `1..4`, not `chunkOverlap = 9` tokens: a non-final range was
clipped by the input end, which the claim does not allow. -/
theorem C6_counterexample :
    splitterTenNine.chunkRanges 5 =
      some [(0, 5), (1, 5), (2, 5), (3, 5), (4, 5)] ∧
    splitterTenNine.splitTextIntoChunks "abcde" byteTok =
      some ["abcde", "bcde", "cde", "de", "e"] ∧
    splitterTenNine.ChunkOverlap = 9 ∧
    ((5 : Int) - (1 : Int) ≠ 9) := by
  refine ⟨by decide, by decide, by decide, by decide⟩

/-- C7 (confirmed): with chunk size 4096 and overlap 100 (the
`NewTokenSplitter 4096` configuration), an input of exactly 10000 tokens
is split into exactly 3 chunks whose start indices advance by 3996
tokens each step (starts 0, 3996, 7992) and whose last chunk holds
2008 < 4096 tokens. -/
theorem C7_ten_thousand_tokens (tk : Tiktoken) (text : String)
    (h : (tk.Encode text [] []).length = 10000) :
    (NewTokenSplitter 4096).chunkRanges 10000 =
      some [(0, 4096), (3996, 8092), (7992, 10000)] ∧
    (NewTokenSplitter 4096).splitTextIntoChunks text tk =
      some [tk.Decode ((tk.Encode text [] []).take 4096),
        tk.Decode (((tk.Encode text [] []).drop 3996).take 4096),
        tk.Decode ((tk.Encode text [] []).drop 7992)] ∧
    ((tk.Encode text [] []).drop 7992).length = 2008 ∧ 2008 < 4096 := by
  have hranges : (NewTokenSplitter 4096).chunkRanges 10000 =
      some [(0, 4096), (3996, 8092), (7992, 10000)] := by decide
  refine ⟨hranges, ?_, ?_, by omega⟩
  · have hA : (NewTokenSplitter 4096).AllowedSpecial = [] := rfl
    have hD : (NewTokenSplitter 4096).DisallowedSpecial = [] := rfl
    simp only [TokenSplitter.splitTextIntoChunks, hA, hD]
    rw [splitLoopFuel_eq_ranges, h]
    have hfe : (NewTokenSplitter 4096).chunkRangesFuel ((10000 : Nat) : Int)
        (10000 + 1) 0
        ((NewTokenSplitter 4096).calculateInitialEndIndex ((10000 : Nat) : Int)) =
        some [(0, 4096), (3996, 8092), (7992, 10000)] := by
      have := hranges
      simpa [TokenSplitter.chunkRanges] using this
    rw [hfe]
    have g1 : goSlice (tk.Encode text [] []) 0 4096 =
        (tk.Encode text [] []).take 4096 := by
      simp [goSlice]
    have g2 : goSlice (tk.Encode text [] []) 3996 8092 =
        ((tk.Encode text [] []).drop 3996).take 4096 := by
      simp only [goSlice]
      rw [show ((8092 : Int) - 3996).toNat = 4096 from rfl,
        show ((3996 : Int)).toNat = 3996 from rfl]
    have g3 : goSlice (tk.Encode text [] []) 7992 10000 =
        (tk.Encode text [] []).drop 7992 := by
      simp only [goSlice]
      rw [show ((10000 : Int) - 7992).toNat = 2008 from rfl,
        show ((7992 : Int)).toNat = 7992 from rfl]
      rw [List.take_of_length_le]
      simp only [List.length_drop, h]
      omega
    simp [g1, g2, g3]
  · simp only [List.length_drop, h]

/-- C3 witness: concrete valid configuration and tokenizer. -/
theorem C3_witness :
    (0 ≤ splitterTen.ChunkOverlap ∧
      splitterTen.ChunkOverlap < splitterTen.ChunkSize ∧
      splitterTen.initializeTokenizer (libOf byteTok) = .ok byteTok) ∧
    (∃ chunks, splitterTen.SplitText (libOf byteTok) "hi" =
        some (.ok chunks) ∧
      (byteTok.Encode "hi" splitterTen.AllowedSpecial
          splitterTen.DisallowedSpecial = [] → chunks = []) ∧
      (byteTok.Encode "hi" splitterTen.AllowedSpecial
          splitterTen.DisallowedSpecial ≠ [] → chunks ≠ [])) :=
  ⟨⟨by decide, by decide, rfl⟩,
    C3_terminates_nonempty_iff splitterTen (libOf byteTok) byteTok "hi"
      (by decide) (by decide) rfl⟩

/-- C4 witness: 3 byte-level tokens fit in one chunk of size 10. -/
theorem C4_witness :
    (byteTok.Encode "abc" splitterTen.AllowedSpecial
        splitterTen.DisallowedSpecial ≠ [] ∧
      ((byteTok.Encode "abc" splitterTen.AllowedSpecial
          splitterTen.DisallowedSpecial).length : Int) ≤
        splitterTen.ChunkSize - splitterTen.ChunkOverlap) ∧
    splitterTen.splitTextIntoChunks "abc" byteTok =
      some [byteTok.Decode (byteTok.Encode "abc" splitterTen.AllowedSpecial
        splitterTen.DisallowedSpecial)] :=
  ⟨⟨by decide, by decide⟩,
    C4_single_chunk splitterTen byteTok "abc" (by decide) (by decide)
      (by decide) (by decide)⟩

/-- C6 witness: concrete valid configuration and input. -/
theorem C6_witness :
    (0 ≤ splitterTenNine.ChunkOverlap ∧
      splitterTenNine.ChunkOverlap < splitterTenNine.ChunkSize) ∧
    (∃ rs, splitterTenNine.chunkRangesFuel
        ((byteTok.Encode "abcde" splitterTenNine.AllowedSpecial
          splitterTenNine.DisallowedSpecial).length : Int)
        ((byteTok.Encode "abcde" splitterTenNine.AllowedSpecial
          splitterTenNine.DisallowedSpecial).length + 1) 0
        (splitterTenNine.calculateInitialEndIndex
          ((byteTok.Encode "abcde" splitterTenNine.AllowedSpecial
            splitterTenNine.DisallowedSpecial).length : Int)) = some rs ∧
      splitterTenNine.splitTextIntoChunks "abcde" byteTok =
        some (rs.map fun r =>
          byteTok.Decode (goSlice (byteTok.Encode "abcde"
            splitterTenNine.AllowedSpecial
            splitterTenNine.DisallowedSpecial) r.1 r.2)) ∧
      List.Chain' (fun a b => a.1 < b.1) rs ∧
      List.Chain' (fun a b =>
        b.1 = a.1 + (splitterTenNine.ChunkSize - splitterTenNine.ChunkOverlap)) rs ∧
      (∀ r ∈ rs,
        r.2 = if r.1 + splitterTenNine.ChunkSize >
            ((byteTok.Encode "abcde" splitterTenNine.AllowedSpecial
              splitterTenNine.DisallowedSpecial).length : Int)
          then ((byteTok.Encode "abcde" splitterTenNine.AllowedSpecial
            splitterTenNine.DisallowedSpecial).length : Int)
          else r.1 + splitterTenNine.ChunkSize) ∧
      List.Chain' (fun a b =>
        a.1 + splitterTenNine.ChunkSize ≤
            ((byteTok.Encode "abcde" splitterTenNine.AllowedSpecial
              splitterTenNine.DisallowedSpecial).length : Int) →
          a.2 - b.1 = splitterTenNine.ChunkOverlap) rs ∧
      sliceJoin splitterTenNine (byteTok.Encode "abcde"
          splitterTenNine.AllowedSpecial splitterTenNine.DisallowedSpecial) rs =
        byteTok.Encode "abcde" splitterTenNine.AllowedSpecial
          splitterTenNine.DisallowedSpecial) :=
  ⟨⟨by decide, by decide⟩,
    C6_order_overlap_coverage splitterTenNine byteTok "abcde"
      (by decide) (by decide)⟩

/-- C7 witness: a concrete tokenizer/text pair with exactly 10000
tokens. -/
theorem C7_witness :
    (rangeTok.Encode "" [] []).length = 10000 ∧
    ((NewTokenSplitter 4096).chunkRanges 10000 =
      some [(0, 4096), (3996, 8092), (7992, 10000)] ∧
    (NewTokenSplitter 4096).splitTextIntoChunks "" rangeTok =
      some [rangeTok.Decode ((rangeTok.Encode "" [] []).take 4096),
        rangeTok.Decode (((rangeTok.Encode "" [] []).drop 3996).take 4096),
        rangeTok.Decode ((rangeTok.Encode "" [] []).drop 7992)] ∧
    ((rangeTok.Encode "" [] []).drop 7992).length = 2008 ∧ 2008 < 4096) :=
  ⟨by simp [rangeTok],
    C7_ten_thousand_tokens rangeTok "" (by simp [rangeTok])⟩

/-- C8 (confirmed): whenever the diff byte length is at most `maxChars`,
`ChunkDiff` returns exactly the one-element sequence holding the
unmodified diff, for every tokenizer library — so the token splitter is
never consulted and no error can arise on this path. -/
theorem C8_fast_path (lib : TiktokenLib) (maxChars : Int) (diff : String)
    (h : (diff.utf8ByteSize : Int) ≤ maxChars) :
    ChunkDiff lib maxChars diff = some (.ok [diff]) := by
  simp only [ChunkDiff, if_pos h]

/-- C8 witness: concrete instance of the fast path. -/
theorem C8_witness :
    (("abc".utf8ByteSize : Int) ≤ 100) ∧
    ChunkDiff (libOf byteTok) 100 "abc" = some (.ok ["abc"]) :=
  ⟨by decide, C8_fast_path (libOf byteTok) 100 "abc" (by decide)⟩

/-! ## Claim theorems: the generation loop and the LLM call -/

/-- C1 (amended): the inner chunk loop of `GenerateCommitMessageLoop`
always breaks after its first iteration (every user choice either ends
the function, exits the process, or reaches the unconditional trailing
`break`), so in every run — for every provider, timeout, stats, chunk
sequence and scripted UI — each attempt makes at most one LLM call,
always for chunk 1 of N; chunks 2..N are never sent to the model, and at
most `maxAttempts` calls happen in total. -/
theorem C1_only_first_chunk_processed (providerInUse : IProvider)
    (llmAPICallTimeout : Int) (stats : String) (chunks : List String)
    (ui : UI) :
    (GenerateCommitMessageLoop providerInUse llmAPICallTimeout stats chunks
      ui).2.length ≤ maxAttempts ∧
    ∀ r ∈ (GenerateCommitMessageLoop providerInUse llmAPICallTimeout stats
        chunks ui).2,
      r.chunkNumber = 1 ∧ r.totalChunks = (chunks.length : Int) :=
  attemptLoop_trace providerInUse llmAPICallTimeout stats chunks ui
    maxAttempts "" {}

/-- C1 counterexample: with two chunks, an always-succeeding provider
and a UI scripted to always answer `Try again`, the whole run makes five
LLM calls, all for chunk 1 — chunk 2 of 2 is never sent to the model, so
no attempt ever sends every chunk before it ends. -/
theorem C1_counterexample :
    (GenerateCommitMessageLoop providerOk 30 "stats" ["a", "b"]
        uiTryAgain).2.map (fun r => r.chunkNumber) = [1, 1, 1, 1, 1] ∧
    (2 : Int) ∉ (GenerateCommitMessageLoop providerOk 30 "stats" ["a", "b"]
        uiTryAgain).2.map (fun r => r.chunkNumber) ∧
    (["a", "b"] : List String).length = 2 := by
  refine ⟨rfl, by decide, rfl⟩

/-- C1 witness: the first call record of a concrete run, showing the
amended per-call properties at a concrete member of the trace. -/
theorem C1_witness :
    (⟨1, 2, "", "a"⟩ : CallRecord) ∈
      (GenerateCommitMessageLoop providerOk 30 "stats" ["a", "b"]
        uiTryAgain).2 ∧
    ((⟨1, 2, "", "a"⟩ : CallRecord).chunkNumber = 1 ∧
      (⟨1, 2, "", "a"⟩ : CallRecord).totalChunks =
        ((["a", "b"] : List String).length : Int)) :=
  ⟨by decide,
    (C1_only_first_chunk_processed providerOk 30 "stats" ["a", "b"]
      uiTryAgain).2 ⟨1, 2, "", "a"⟩ (by decide)⟩

/-- C5 (amended): with a scripted UI that always answers `Try again`
(followed by any fixed alternate-instruction choice) and a provider
whose completion always succeeds, `GenerateCommitMessageLoop` on a
nonempty chunk sequence terminates with the `maximum attempts reached`
error after exactly `maxAttempts = 5` attempts — but each attempt makes
exactly one LLM call (for the first chunk), so the total is 5 calls, not
5 times the number of chunks. -/
theorem C5_max_attempts_five_calls (providerInUse : IProvider)
    (llmAPICallTimeout : Int) (stats : String) (chunks : List String)
    (ui : UI) (hne : chunks ≠ [])
    (hok : ∀ ctx prompt, (providerInUse.Completion ctx prompt).isOk = true)
    (hui : ∀ k, ui.mainChoice k = .tryAgain) :
    (GenerateCommitMessageLoop providerInUse llmAPICallTimeout stats chunks
      ui).1 = .failure "maximum attempts reached" ∧
    (GenerateCommitMessageLoop providerInUse llmAPICallTimeout stats chunks
      ui).2.length = maxAttempts := by
  have hgen : ∀ (cn N : Int) (instr c2 : String), ∃ m,
      GenerateCommitMessage Context.background providerInUse
        llmAPICallTimeout stats c2 cn N instr = .ok m := by
    intro cn N instr c2
    simp only [GenerateCommitMessage, CallLLM]
    cases hcall : providerInUse.Completion
        (Context.withTimeout Context.background llmAPICallTimeout)
        (GenerateCommitMessagePrompt stats c2 cn N instr) with
    | ok m => exact ⟨m, rfl⟩
    | error e =>
      have := hok (Context.withTimeout Context.background llmAPICallTimeout)
        (GenerateCommitMessagePrompt stats c2 cn N instr)
      rw [hcall] at this
      simp [Except.isOk, Except.toBool] at this
  obtain ⟨c, rest, hchunks⟩ : ∃ c rest, chunks = c :: rest := by
    cases chunks with
    | nil => exact absurd rfl hne
    | cons c rest => exact ⟨c, rest, rfl⟩
  subst hchunks
  have key : ∀ (n : Nat) (instr : String) (ust : UIState),
      (attemptLoop providerInUse llmAPICallTimeout stats (c :: rest) ui n
        instr ust).1 = .failure "maximum attempts reached" ∧
      (attemptLoop providerInUse llmAPICallTimeout stats (c :: rest) ui n
        instr ust).2.length = n := by
    intro n
    induction n with
    | zero => intro instr ust; exact ⟨rfl, rfl⟩
    | succ n ih =>
      intro instr ust
      obtain ⟨m, hm⟩ := hgen (((0 : Nat) : Int) + 1)
        (((c :: rest).length : Nat) : Int) instr c
      simp only [attemptLoop, innerChunkLoop]
      rw [hm, hui ust.mainIdx]
      obtain ⟨ih1, ih2⟩ := ih (HandleTryAgain ui
        { ust with mainIdx := ust.mainIdx + 1 }).1
        (HandleTryAgain ui { ust with mainIdx := ust.mainIdx + 1 }).2
      refine ⟨ih1, ?_⟩
      simp only [List.length_append, ih2, List.length_cons, List.length_nil]
      omega
  exact key maxAttempts "" {}

/-- C5 counterexample: the scripted always-`Try again` run on the
two-chunk sequence `["a", "b"]` exhausts the attempt budget after
exactly 5 LLM calls — not the 5 × 2 = 10 calls the claim predicts. -/
theorem C5_counterexample :
    (GenerateCommitMessageLoop providerOk 30 "stats" ["a", "b"]
      uiTryAgain).1 = .failure "maximum attempts reached" ∧
    (GenerateCommitMessageLoop providerOk 30 "stats" ["a", "b"]
      uiTryAgain).2.length = 5 ∧
    5 ≠ 5 * (["a", "b"] : List String).length := by
  refine ⟨rfl, rfl, by decide⟩

/-- C5 witness: the amended statement instantiated at a concrete
provider, UI script and chunk sequence. -/
theorem C5_witness :
    ((["a", "b"] : List String) ≠ [] ∧
      (∀ ctx prompt, (providerOk.Completion ctx prompt).isOk = true) ∧
      (∀ k, uiTryAgain.mainChoice k = .tryAgain)) ∧
    ((GenerateCommitMessageLoop providerOk 30 "st" ["a", "b"]
        uiTryAgain).1 = .failure "maximum attempts reached" ∧
      (GenerateCommitMessageLoop providerOk 30 "st" ["a", "b"]
        uiTryAgain).2.length = maxAttempts) :=
  ⟨⟨by simp, fun _ _ => rfl, fun _ => rfl⟩,
    C5_max_attempts_five_calls providerOk 30 "st" ["a", "b"] uiTryAgain
      (by simp) (fun _ _ => rfl) (fun _ => rfl)⟩

/-- C10 (confirmed): `CallLLM` (and therefore `GenerateCommitMessage`)
ignores the caller-supplied context entirely: the context handed to the
provider is always `withTimeout` applied to a fresh background context
and the call timeout, so the result is identical for any two caller
contexts — including an already-cancelled one — and cancelling the
caller context can never cancel the LLM call. -/
theorem C10_caller_context_ignored :
    ∀ (ctx ctx' : Context) (providerInUse : IProvider)
      (llmAPICallTimeout : Int) (prompt stats diff : String)
      (chunkNumber totalChunks : Int) (additionalInstructions : String),
      CallLLM ctx providerInUse llmAPICallTimeout prompt =
        providerInUse.Completion
          (Context.withTimeout Context.background llmAPICallTimeout)
          prompt ∧
      CallLLM ctx providerInUse llmAPICallTimeout prompt =
        CallLLM ctx' providerInUse llmAPICallTimeout prompt ∧
      CallLLM (Context.cancelled ctx) providerInUse llmAPICallTimeout
          prompt =
        CallLLM Context.background providerInUse llmAPICallTimeout prompt ∧
      GenerateCommitMessage ctx providerInUse llmAPICallTimeout stats diff
          chunkNumber totalChunks additionalInstructions =
        GenerateCommitMessage ctx' providerInUse llmAPICallTimeout stats
          diff chunkNumber totalChunks additionalInstructions :=
  fun _ _ _ _ _ _ _ _ _ _ => ⟨rfl, rfl, rfl, rfl⟩

/-! ## Substring analysis for the prompt builder (C9) -/

/-- An infix of a concatenation lies in the left part, in the right
part, or spans the boundary: a proper nonempty prefix of it is a suffix
of the left part and the rest is a prefix of the right part. -/
theorem infix_append_cases {α : Type} (p x y : List α) (h : p <:+: x ++ y) :
    p <:+: x ∨ p <:+: y ∨
      ∃ k, k < p.length ∧ 0 < k ∧ p.take k <:+ x ∧ p.drop k <+: y := by
  obtain ⟨s, t, heq⟩ := h
  by_cases hA : s.length + p.length ≤ x.length
  · left
    have h1 : (x ++ y).take x.length = x := List.take_left x y
    rw [← heq] at h1
    have h2 : (s ++ p ++ t).take x.length =
        s ++ (p ++ t.take (x.length - s.length - p.length)) := by
      rw [List.append_assoc, List.take_append_eq_append_take,
        List.take_of_length_le (by omega), List.take_append_eq_append_take,
        List.take_of_length_le (by omega)]
    have hx : s ++ (p ++ t.take (x.length - s.length - p.length)) = x := by
      rw [← h2, h1]
    exact ⟨s, t.take (x.length - s.length - p.length),
      by rw [← List.append_assoc] at hx; exact hx⟩
  · by_cases hB : x.length ≤ s.length
    · right; left
      have h1 : (x ++ y).drop x.length = y := List.drop_left x y
      rw [← heq] at h1
      have h2 : (s ++ p ++ t).drop x.length =
          s.drop x.length ++ (p ++ t) := by
        rw [List.append_assoc, List.drop_append_eq_append_drop,
          show x.length - s.length = 0 by omega, List.drop_zero]
      have hy : s.drop x.length ++ (p ++ t) = y := by rw [← h2, h1]
      exact ⟨s.drop x.length, t,
        by rw [← List.append_assoc] at hy; exact hy⟩
    · right; right
      push_neg at hA hB
      refine ⟨x.length - s.length, by omega, by omega, ?_, ?_⟩
      · have h1 : (x ++ y).take x.length = x := List.take_left x y
        rw [← heq] at h1
        have h2 : (s ++ p ++ t).take x.length =
            s ++ p.take (x.length - s.length) := by
          rw [List.append_assoc, List.take_append_eq_append_take,
            List.take_of_length_le (by omega), List.take_append_eq_append_take,
            show x.length - s.length - p.length = 0 by omega]
          simp
        exact ⟨s, by rw [← h2, h1]⟩
      · have h1 : (x ++ y).drop x.length = y := List.drop_left x y
        rw [← heq] at h1
        have h2 : (s ++ p ++ t).drop x.length =
            p.drop (x.length - s.length) ++ t := by
          rw [List.append_assoc, List.drop_append_eq_append_drop,
            List.drop_eq_nil_of_le (by omega : s.length ≤ x.length),
            List.drop_append_eq_append_drop,
            show x.length - s.length - p.length = 0 by omega]
          simp
        exact ⟨t, by rw [← h2, h1]⟩

/-- When the right part of a boundary starts with a character that does
not occur in the pattern, no nonempty remainder of the pattern can
continue across that boundary. -/
theorem drop_not_prefix_of_head {p : List Char} {c0 : Char}
    (m : List Char) (hc : c0 ∉ p) :
    ∀ k, k < p.length → ¬ (p.drop k <+: c0 :: m) := by
  intro k hk hpre
  have hne : p.drop k ≠ [] := by
    intro hnil
    have := congrArg List.length hnil
    simp at this
    omega
  obtain ⟨a, l, hal⟩ := List.exists_cons_of_ne_nil hne
  rw [hal] at hpre
  have hac : a = c0 := (List.cons_prefix_cons.mp hpre).1
  have hmem : a ∈ p := by
    have : a ∈ p.drop k := by rw [hal]; simp
    exact List.drop_subset k p this
  rw [hac] at hmem
  exact hc hmem

/-- Glue step: a pattern absent from both parts of a concatenation and
unable to span the boundary is absent from the concatenation. -/
theorem not_infix_glue (p x y : List Char)
    (hx : ¬ p <:+: x) (hy : ¬ p <:+: y)
    (hspan : ∀ k, k < p.length → 0 < k →
      ¬ (p.take k <:+ x ∧ p.drop k <+: y)) :
    ¬ p <:+: x ++ y := by
  intro h
  rcases infix_append_cases p x y h with h | h | ⟨k, hk1, hk2, hk3, hk4⟩
  · exact hx h
  · exact hy h
  · exact hspan k hk1 hk2 ⟨hk3, hk4⟩

/-- Character-level normal form of the non-chunked prompt (both framing
argument slots hold the empty string). -/
theorem prompt1_data (stats diff extra : String) :
    (commitPromptFmt "" stats "" diff ("**" ++ extra ++ "**")).data =
      commitPromptPiece0.data ++ (commitPromptPiece1.data ++ (stats.data ++
        ((commitPromptPiece2.data ++ commitPromptPiece3.data) ++
          (diff.data ++ (commitPromptPiece4.data ++
            ("**".data ++ (extra.data ++ "**".data))))))) := by
  simp only [commitPromptFmt, String.data_append, List.append_assoc,
    show ("" : String).data = [] from rfl,
    show commitPromptPiece5.data = [] from rfl,
    List.nil_append, List.append_nil]

/-- A pattern that does not occur in the user-supplied strings, that
cannot close at the boundary of any template piece, and that avoids the
newline and asterisk characters heading every template piece after a
user slot, does not occur in the non-chunked prompt at all. -/
theorem prompt1_not_infix (P : List Char) (stats diff extra : String)
    (hstats : ¬ P <:+: stats.data) (hdiff : ¬ P <:+: diff.data)
    (hextra : ¬ P <:+: extra.data)
    (hnl : ('\n' : Char) ∉ P) (hstar : ('*' : Char) ∉ P)
    (hp0 : ¬ P <:+: commitPromptPiece0.data)
    (hp1 : ¬ P <:+: commitPromptPiece1.data)
    (hp23 : ¬ P <:+: (commitPromptPiece2.data ++ commitPromptPiece3.data))
    (hp4 : ¬ P <:+: commitPromptPiece4.data)
    (hstar2 : ¬ P <:+: "**".data)
    (hs0 : ∀ k, k < P.length → 0 < k → ¬ P.take k <:+ commitPromptPiece0.data)
    (hs1 : ∀ k, k < P.length → 0 < k → ¬ P.take k <:+ commitPromptPiece1.data)
    (hs23 : ∀ k, k < P.length → 0 < k →
      ¬ P.take k <:+ (commitPromptPiece2.data ++ commitPromptPiece3.data))
    (hs4 : ∀ k, k < P.length → 0 < k → ¬ P.take k <:+ commitPromptPiece4.data)
    (hsstar : ∀ k, k < P.length → 0 < k → ¬ P.take k <:+ "**".data) :
    ¬ P <:+: (commitPromptFmt "" stats "" diff ("**" ++ extra ++ "**")).data := by
  rw [prompt1_data]
  have g1 : ¬ P <:+: extra.data ++ "**".data := by
    apply not_infix_glue _ _ _ hextra hstar2
    intro k hk hk0 hsp
    have h2 := hsp.2
    rw [show ("**".data : List Char) = '*' :: ['*'] from rfl] at h2
    exact drop_not_prefix_of_head _ hstar k hk h2
  have g2 : ¬ P <:+: "**".data ++ (extra.data ++ "**".data) := by
    apply not_infix_glue _ _ _ hstar2 g1
    intro k hk hk0 hsp
    exact hsstar k hk hk0 hsp.1
  have g3 : ¬ P <:+: commitPromptPiece4.data ++
      ("**".data ++ (extra.data ++ "**".data)) := by
    apply not_infix_glue _ _ _ hp4 g2
    intro k hk hk0 hsp
    exact hs4 k hk hk0 hsp.1
  have g4 : ¬ P <:+: diff.data ++ (commitPromptPiece4.data ++
      ("**".data ++ (extra.data ++ "**".data))) := by
    apply not_infix_glue _ _ _ hdiff g3
    intro k hk hk0 hsp
    have h2 := hsp.2
    rw [show commitPromptPiece4.data = ['\n', '\n'] from rfl] at h2
    simp only [List.cons_append, List.nil_append] at h2
    exact drop_not_prefix_of_head _ hnl k hk h2
  have g5 : ¬ P <:+: (commitPromptPiece2.data ++ commitPromptPiece3.data) ++
      (diff.data ++ (commitPromptPiece4.data ++
        ("**".data ++ (extra.data ++ "**".data)))) := by
    apply not_infix_glue _ _ _ hp23 g4
    intro k hk hk0 hsp
    exact hs23 k hk hk0 hsp.1
  have g6 : ¬ P <:+: stats.data ++
      ((commitPromptPiece2.data ++ commitPromptPiece3.data) ++
        (diff.data ++ (commitPromptPiece4.data ++
          ("**".data ++ (extra.data ++ "**".data))))) := by
    apply not_infix_glue _ _ _ hstats g5
    intro k hk hk0 hsp
    have h2 := hsp.2
    rw [show commitPromptPiece2.data = ['\n', '\n'] from rfl,
      show commitPromptPiece3.data = ['\n', '\n'] from rfl] at h2
    simp only [List.cons_append, List.nil_append] at h2
    exact drop_not_prefix_of_head _ hnl k hk h2
  have g7 : ¬ P <:+: commitPromptPiece1.data ++ (stats.data ++
      ((commitPromptPiece2.data ++ commitPromptPiece3.data) ++
        (diff.data ++ (commitPromptPiece4.data ++
          ("**".data ++ (extra.data ++ "**".data)))))) := by
    apply not_infix_glue _ _ _ hp1 g6
    intro k hk hk0 hsp
    exact hs1 k hk hk0 hsp.1
  apply not_infix_glue _ _ _ hp0 g7
  intro k hk hk0 hsp
  exact hs0 k hk hk0 hsp.1

/-- Correctness of `containsB` in the negative direction. -/
theorem not_infix_of_containsB (P : List Char) :
    ∀ l, containsB P l = false → ¬ P <:+: l := by
  intro l
  induction l with
  | nil =>
    intro h hinf
    rw [List.infix_nil] at hinf
    subst hinf
    simp [containsB, List.isEmpty] at h
  | cons a t ih =>
    intro h hinf
    simp only [containsB, Bool.or_eq_false_iff] at h
    rcases List.infix_cons_iff.mp hinf with hpre | hinf2
    · rw [← List.isPrefixOf_iff_prefix] at hpre
      rw [h.1] at hpre
      exact Bool.false_ne_true hpre
    · exact ih h.2 hinf2

/-- Span condition via the last character: when the left part of a
boundary ends in a character that does not occur in the pattern, no
nonempty prefix of the pattern is a suffix of that part. -/
theorem not_take_suffix_of_getLast (P x : List Char) (c : Char)
    (hxlast : x.getLast? = some c) (hc : c ∉ P) :
    ∀ k, k < P.length → 0 < k → ¬ P.take k <:+ x := by
  intro k hk hk0 hsuf
  obtain ⟨s, hs⟩ := hsuf
  have hne : P.take k ≠ [] := by
    intro h
    have := congrArg List.length h
    simp only [List.length_take, List.length_nil] at this
    omega
  rw [← hs, List.getLast?_append] at hxlast
  cases hgl : (P.take k).getLast? with
  | none =>
    rw [List.getLast?_eq_none_iff] at hgl
    exact hne hgl
  | some d =>
    rw [hgl] at hxlast
    have hdc : d = c := by
      have hor : (some d).or s.getLast? = some d := rfl
      rw [hor] at hxlast
      exact Option.some.inj hxlast
    subst hdc
    have hcmem : d ∈ P.take k := by
      obtain ⟨h9, h10⟩ := List.mem_getLast?_eq_getLast
        (show d ∈ (P.take k).getLast? from hgl)
      rw [h10]
      exact List.getLast_mem h9
    exact hc (List.take_subset k P hcmem)

/-- Reformulation of the take-prefix/suffix span condition as a
decidable family of list equalities. -/
theorem not_take_suffix_of_ne (P x : List Char)
    (h : ∀ k, k < P.length → 0 < k → P.take k ≠ x.drop (x.length - k)) :
    ∀ k, k < P.length → 0 < k → ¬ P.take k <:+ x := by
  intro k hk hk0 hsuf
  have hlen : (P.take k).length = k := by
    simp only [List.length_take]
    omega
  have heq := List.suffix_iff_eq_drop.mp hsuf
  rw [hlen] at heq
  exact h k hk hk0 heq

/-! ## Claim theorem: prompt framing (C9) -/

/-- C9 (confirmed): for all inputs that do not themselves contain the
framing strings, the prompt built for `totalChunks ≤ 1` contains no
chunk-position framing text — no `Chunk i of N` header for any `i`, `N`
and no too-large note — while for `totalChunks > 1` the prompt contains
the literal `Chunk i of N:` header with the supplied chunk index and
total count, together with the note that the diff was too big and was
chunked. -/
theorem C9_prompt_framing (stats diff extra : String)
    (chunkNumber totalChunks : Int)
    (hstC : ¬ "Chunk".data <:+: stats.data)
    (hdiC : ¬ "Chunk".data <:+: diff.data)
    (hexC : ¬ "Chunk".data <:+: extra.data)
    (hstB : ¬ tooBigNote.data <:+: stats.data)
    (hdiB : ¬ tooBigNote.data <:+: diff.data)
    (hexB : ¬ tooBigNote.data <:+: extra.data) :
    (totalChunks ≤ 1 →
      (∀ i N : Int, ¬ (chunkHeader i N).data <:+:
          (GenerateCommitMessagePrompt stats diff chunkNumber totalChunks
            extra).data) ∧
      ¬ tooBigNote.data <:+:
        (GenerateCommitMessagePrompt stats diff chunkNumber totalChunks
          extra).data) ∧
    (1 < totalChunks →
      (chunkHeader chunkNumber totalChunks).data <:+:
        (GenerateCommitMessagePrompt stats diff chunkNumber totalChunks
          extra).data ∧
      tooBigNote.data <:+:
        (GenerateCommitMessagePrompt stats diff chunkNumber totalChunks
          extra).data) := by
  constructor
  · intro hle
    have hprompt : GenerateCommitMessagePrompt stats diff chunkNumber
        totalChunks extra =
        commitPromptFmt "" stats "" diff ("**" ++ extra ++ "**") := by
      simp only [GenerateCommitMessagePrompt,
        if_neg (show ¬ totalChunks > 1 by omega)]
    rw [hprompt]
    have hChunk : ¬ "Chunk".data <:+:
        (commitPromptFmt "" stats "" diff ("**" ++ extra ++ "**")).data :=
      prompt1_not_infix "Chunk".data stats diff extra hstC hdiC hexC
        (by decide) (by decide)
        (not_infix_of_containsB _ _ (by decide))
        (not_infix_of_containsB _ _ (by decide))
        (by decide) (by decide) (by decide)
        (not_take_suffix_of_getLast _ _ ' ' (by decide) (by decide))
        (not_take_suffix_of_getLast _ _ '\n' (by decide) (by decide))
        (not_take_suffix_of_getLast _ _ '\n' (by decide) (by decide))
        (not_take_suffix_of_getLast _ _ '\n' (by decide) (by decide))
        (not_take_suffix_of_getLast _ _ '*' (by decide) (by decide))
    refine ⟨?_, ?_⟩
    · intro i N hinf
      apply hChunk
      have h0 : "Chunk".data <+: "Chunk ".data := by decide
      have hpre : "Chunk".data <+: (chunkHeader i N).data := by
        simp only [chunkHeader, String.data_append]
        exact (((h0.trans (List.prefix_append _ _)).trans
          (List.prefix_append _ _)).trans
          (List.prefix_append _ _)).trans (List.prefix_append _ _)
      exact (hpre.isInfix).trans hinf
    · exact prompt1_not_infix tooBigNote.data stats diff extra hstB hdiB hexB
        (by decide) (by decide)
        (not_infix_of_containsB _ _ (by decide))
        (not_infix_of_containsB _ _ (by decide))
        (by decide) (by decide) (by decide)
        (not_take_suffix_of_ne _ _ (by decide))
        (not_take_suffix_of_getLast _ _ '\n' (by decide) (by decide))
        (not_take_suffix_of_getLast _ _ '\n' (by decide) (by decide))
        (not_take_suffix_of_getLast _ _ '\n' (by decide) (by decide))
        (not_take_suffix_of_getLast _ _ '*' (by decide) (by decide))
  · intro hgt
    have hprompt : GenerateCommitMessagePrompt stats diff chunkNumber
        totalChunks extra =
        commitPromptFmt tooBigNote stats
          (chunkHeader chunkNumber totalChunks) diff
          ("**" ++ extra ++ "**") := by
      simp only [GenerateCommitMessagePrompt,
        if_pos (show totalChunks > 1 by omega)]
    rw [hprompt]
    constructor
    · refine ⟨(commitPromptPiece0 ++ tooBigNote ++ commitPromptPiece1 ++
        stats ++ commitPromptPiece2).data,
        (commitPromptPiece3 ++ diff ++ commitPromptPiece4 ++
          ("**" ++ extra ++ "**") ++ commitPromptPiece5).data, ?_⟩
      simp only [commitPromptFmt, String.data_append, List.append_assoc]
    · refine ⟨commitPromptPiece0.data,
        (commitPromptPiece1 ++ stats ++ commitPromptPiece2 ++
          chunkHeader chunkNumber totalChunks ++ commitPromptPiece3 ++
          diff ++ commitPromptPiece4 ++ ("**" ++ extra ++ "**") ++
          commitPromptPiece5).data, ?_⟩
      simp only [commitPromptFmt, String.data_append, List.append_assoc]

/-- C9 witness: a concrete instance with clean inputs, exercising the
chunked branch of the prompt builder. -/
theorem C9_witness :
    ((¬ "Chunk".data <:+: "3 files changed".data) ∧
      (¬ "Chunk".data <:+: "+ added".data) ∧
      (¬ "Chunk".data <:+: ("" : String).data) ∧
      (¬ Committer.tooBigNote.data <:+: "3 files changed".data) ∧
      (¬ Committer.tooBigNote.data <:+: "+ added".data) ∧
      (¬ Committer.tooBigNote.data <:+: ("" : String).data) ∧
      (1 : Int) < 2) ∧
    ((Committer.chunkHeader 1 2).data <:+:
      (Committer.GenerateCommitMessagePrompt "3 files changed" "+ added"
        1 2 "").data ∧
    Committer.tooBigNote.data <:+:
      (Committer.GenerateCommitMessagePrompt "3 files changed" "+ added"
        1 2 "").data) :=
  ⟨⟨by decide, by decide, by decide, by decide, by decide, by decide,
      by decide⟩,
    (C9_prompt_framing "3 files changed" "+ added" "" 1 2 (by decide)
      (by decide) (by decide) (by decide) (by decide) (by decide)).2
      (by decide)⟩
